import Mathlib

/-!
# Verification of the `image-bmp` codec

This development embeds the `image-bmp` repository (a decoder and encoder for
Windows Bitmap images) in Lean 4 and proves the specification's claims about it.

The crate's public error type and its `From<std::io::Error>` conversion are
embedded directly from `src/lib.rs`.  The `decoder` and `encoder` modules are
declared in `src/lib.rs` (`mod decoder; mod encoder;`) and re-exported
(`BMPDecoder`, `BMPEncoder`), but their sources are not part of this tree, so
their behaviour is modelled from the specification (each such definition is
marked `Modelled from the spec:` and documents the choices the spec leaves
open).

Bytes are embedded as `Nat` values; every read masks with `% 256`, mirroring
the fact that the underlying Rust byte source yields `u8` values.
Fallible operations return `Except ImageError`.
-/

namespace ImageBmp

/-- Abstract stand-in for `std::io::Error`: the codec never inspects the
underlying error, it only wraps it, so an opaque payload suffices. -/
structure IoErr where
  code : Nat
deriving DecidableEq, Repr

/-- The public error type of the crate, embedded from `src/lib.rs`:
`pub enum ImageError { FormatError(String), UnsupportedError(String), IoError(std::io::Error) }`. -/
inductive ImageError where
  | FormatError : String → ImageError
  | UnsupportedError : String → ImageError
  | IoError : IoErr → ImageError
deriving DecidableEq, Repr

/-- Embedded from `src/lib.rs`: `impl From<std::io::Error> for ImageError`,
which wraps the error as `ImageError::IoError(err)` unchanged. -/
def imageErrorFromIo (e : IoErr) : ImageError := ImageError.IoError e

/-- A resolved pixel: (red, green, blue) channel bytes. -/
abbrev Pixel := Nat × Nat × Nat

/-- Read the byte at index `k` of the stream (masked to a byte; reads past the
end of the list are only ever performed after a length check has already
succeeded, so the default `0` is unreachable in practice). -/
def byteAt : List Nat → Nat → Nat
  | [], _ => 0
  | b :: _, 0 => b % 256
  | _ :: bs, k + 1 => byteAt bs k

/-- Little-endian 16-bit read at offset `k`. -/
def readU16 (bs : List Nat) (k : Nat) : Nat :=
  byteAt bs k + 256 * byteAt bs (k + 1)

/-- Little-endian 32-bit read at offset `k`. -/
def readU32 (bs : List Nat) (k : Nat) : Nat :=
  byteAt bs k + 256 * byteAt bs (k + 1) + 65536 * byteAt bs (k + 2) +
    16777216 * byteAt bs (k + 3)

/-- Little-endian signed 32-bit read at offset `k` (two's complement). -/
def readI32 (bs : List Nat) (k : Nat) : Int :=
  let v := readU32 bs k
  if v < 2 ^ 31 then (v : Int) else (v : Int) - 2 ^ 32

/-- Little-endian 32-bit write (of the value modulo `2^32`). -/
def writeU32 (n : Nat) : List Nat :=
  [n % 256, n / 256 % 256, n / 65536 % 256, n / 16777216 % 256]

/-- Little-endian 16-bit write. -/
def writeU16 (n : Nat) : List Nat :=
  [n % 256, n / 256 % 256]

/-- Little-endian signed 32-bit write (two's complement). -/
def writeI32 (n : Int) : List Nat :=
  writeU32 (n % (2 ^ 32 : Int)).toNat

/-- Modelled from the spec: the compression kinds the codec handles
(`None | RLE4 | RLE8`; the `Bitfields` kind is recognized but reported as an
unsupported variant, which §7 of the spec sanctions for
recognized-but-unimplemented combinations). -/
inductive CompressionKind where
  | uncompressed
  | rle8
  | rle4
deriving DecidableEq, Repr

/-- Modelled from the spec: the normalized internal descriptor produced by the
header parser (§3 ImageDescriptor). -/
structure ImageDescriptor where
  width : Int
  height : Int
  bpp : Nat
  compression : CompressionKind
  colorsUsed : Nat
  dataOffset : Nat
deriving DecidableEq, Repr

/-- Negative header height marks top-down row order (§4.1). -/
def ImageDescriptor.topDown (d : ImageDescriptor) : Bool := d.height < 0

/-- Pixel-column count as a natural number. -/
def ImageDescriptor.w (d : ImageDescriptor) : Nat := d.width.toNat

/-- Pixel-row count as a natural number (absolute value of the header height). -/
def ImageDescriptor.h (d : ImageDescriptor) : Nat := d.height.natAbs

/-- Modelled from the spec: the configured ceiling on the required
pixel-buffer byte bound (§4.1).  The spec fixes no concrete number; `2^31`
bytes is the arbitrary-but-fixed choice of this model. -/
def sizeCeiling : Nat := 2 ^ 31

/-- Modelled from the spec (§4.1): compute the upper bound on required
pixel-buffer bytes as width × height × channel-count with overflow-checked
arithmetic at the 64-bit width, and require it not to exceed the configured
ceiling.  The decoded pixel type is always an (r,g,b) triple, so the channel
count is 3. -/
def checkImageSize (w h channels : Nat) : Bool :=
  decide (w * h < 2 ^ 64) && decide (w * h * channels < 2 ^ 64) &&
    decide (w * h * channels ≤ sizeCeiling)

/-- Bytes per encoded row before padding: `ceil(w * bpp / 8)`. -/
def rowSize (w bpp : Nat) : Nat := (w * bpp + 7) / 8

/-- Encoded rows are padded to a 4-byte boundary on disk (§4.5). -/
def paddedRowSize (w bpp : Nat) : Nat := (rowSize w bpp + 3) / 4 * 4

/-- Modelled from the spec (§4.1): map the raw compression code from the info
header to a compression kind, validating compatibility with the bit depth
(run-length encoding is only legal at its matching bit depth; `Bitfields`
and unknown codes are unsupported variants). -/
def parseCompression (code bpp : Nat) : Except ImageError CompressionKind :=
  if code = 0 then .ok .uncompressed
  else if code = 1 then
    if bpp = 8 then .ok .rle8
    else .error (.FormatError "RLE8 compression requires 8 bits per pixel")
  else if code = 2 then
    if bpp = 4 then .ok .rle4
    else .error (.FormatError "RLE4 compression requires 4 bits per pixel")
  else if code = 3 then .error (.UnsupportedError "bitfields compression")
  else .error (.UnsupportedError "unknown compression code")

/-- Modelled from the spec (§4.2): read `count` palette entries of 4 bytes
each (stored blue, green, red, reserved) starting right after the 54 header
bytes, as (r,g,b) triples. -/
def readPalette (bs : List Nat) (count : Nat) : List Pixel :=
  (List.range count).map fun i =>
    (byteAt bs (54 + 4 * i + 2), byteAt bs (54 + 4 * i + 1), byteAt bs (54 + 4 * i))

/-- Modelled from the spec: decoder state after construction — the normalized
descriptor, the resolved palette (empty for bit depths above 8), and the byte
stream from the pixel-data offset on. -/
structure BMPDecoder where
  desc : ImageDescriptor
  palette : List Pixel
  rest : List Nat
deriving DecidableEq, Repr

/-- Modelled from the spec (§4.1, §4.2): `BMPDecoder::new` — parse the 14-byte
file header and the 40-byte `BITMAPINFOHEADER` (other info-header lengths are
recognized-but-unhandled variants → unsupported error), validate the
descriptor, enforce the allocation ceiling, and read the palette for indexed
depths.  The declared file-size field (bytes 2..5) is deliberately unused.
Malformed or oversized headers are rejected here, before any pixel data is
touched. -/
def BMPDecoder.new (bs : List Nat) : Except ImageError BMPDecoder :=
  if bs.length < 14 then .error (.FormatError "truncated file header")
  else if ¬(byteAt bs 0 = 66 ∧ byteAt bs 1 = 77) then
    .error (.FormatError "BMP signature not found")
  else if bs.length < 54 then .error (.FormatError "truncated info header")
  else if readU32 bs 14 ≠ 40 then
    .error (.UnsupportedError "unsupported info header length")
  else if readI32 bs 18 ≤ 0 then .error (.FormatError "width must be positive")
  else if readI32 bs 22 = 0 then .error (.FormatError "height must be nonzero")
  else if ¬(readU16 bs 28 = 1 ∨ readU16 bs 28 = 4 ∨ readU16 bs 28 = 8 ∨
      readU16 bs 28 = 16 ∨ readU16 bs 28 = 24 ∨ readU16 bs 28 = 32) then
    .error (.FormatError "unsupported bits per pixel")
  else
    match parseCompression (readU32 bs 30) (readU16 bs 28) with
    | .error e => .error e
    | .ok comp =>
      if ¬checkImageSize (readI32 bs 18).toNat (readI32 bs 22).natAbs 3 then
        .error (.FormatError "image too large")
      else if readU16 bs 28 ≤ 8 then
        if bs.length <
            54 + (if readU32 bs 46 = 0 then 2 ^ readU16 bs 28 else readU32 bs 46) * 4 then
          .error (.FormatError "truncated palette")
        else
          .ok ⟨⟨readI32 bs 18, readI32 bs 22, readU16 bs 28, comp, readU32 bs 46,
              readU32 bs 10⟩,
            readPalette bs (if readU32 bs 46 = 0 then 2 ^ readU16 bs 28 else readU32 bs 46),
            bs.drop (readU32 bs 10)⟩
      else
        .ok ⟨⟨readI32 bs 18, readI32 bs 22, readU16 bs 28, comp, readU32 bs 46,
            readU32 bs 10⟩, [], bs.drop (readU32 bs 10)⟩

/-- Modelled from the spec (§4.2): resolve a pixel value against the palette;
an index at or past the actual palette length is a format error, never an
out-of-bounds read. -/
def lookupPalette (pal : List Pixel) (i : Nat) : Except ImageError Pixel :=
  if i < pal.length then .ok (pal.getD i (0, 0, 0))
  else .error (.FormatError "palette index out of range")

/-- Modelled from the spec (§4.4): extract the `j`-th sub-byte palette index
of a row at indexed bit depths, most-significant-bit first. -/
def extractIndex (bpp : Nat) (row : List Nat) (j : Nat) : Nat :=
  if bpp = 1 then byteAt row (j / 8) / 2 ^ (7 - j % 8) % 2
  else if bpp = 4 then
    if j % 2 = 0 then byteAt row (j / 2) / 16 else byteAt row (j / 2) % 16
  else byteAt row j

/-- Error-propagating map over a list (the shape of the Rust `?` operator in
a loop): stops at the first failing element. -/
def mapME {α β : Type} (f : α → Except ImageError β) : List α → Except ImageError (List β)
  | [] => .ok []
  | a :: l =>
    match f a with
    | .error e => .error e
    | .ok b =>
      match mapME f l with
      | .error e => .error e
      | .ok bs => .ok (b :: bs)

/-- Modelled from the spec (§4.4): decode one 24-bpp row of `w` pixels; three
raw bytes per pixel in blue-green-red order, reordered to (r,g,b). -/
def decodeRow24 : Nat → List Nat → List Pixel
  | 0, _ => []
  | n + 1, row => (byteAt row 2, byteAt row 1, byteAt row 0) :: decodeRow24 n (row.drop 3)

/-- Modelled from the spec (§4.4): decode one 16-bpp row with the default
5-5-5 channel masks; each 5-bit channel is normalized to 8 bits by
left-shift-and-zero-fill (the normalization rule this model documents as its
choice, per §9). -/
def decodeRow16 : Nat → List Nat → List Pixel
  | 0, _ => []
  | n + 1, row =>
    let v := byteAt row 0 + 256 * byteAt row 1
    (v / 1024 % 32 * 8, v / 32 % 32 * 8, v % 32 * 8) :: decodeRow16 n (row.drop 2)

/-- Modelled from the spec (§4.4): decode one 32-bpp uncompressed row; four
bytes per pixel in blue-green-red-reserved order, the fourth byte treated as
opaque and ignored (no alpha mask is declared by the handled header variant). -/
def decodeRow32 : Nat → List Nat → List Pixel
  | 0, _ => []
  | n + 1, row => (byteAt row 2, byteAt row 1, byteAt row 0) :: decodeRow32 n (row.drop 4)

/-- Modelled from the spec (§4.4): decode one already-depadded-or-padded
scanline of `w` pixels at the given bit depth, resolving indexed depths
through the palette. -/
def decodeRowPixels (pal : List Pixel) (bpp w : Nat) (row : List Nat) :
    Except ImageError (List Pixel) :=
  if bpp = 24 then .ok (decodeRow24 w row)
  else if bpp = 16 then .ok (decodeRow16 w row)
  else if bpp = 32 then .ok (decodeRow32 w row)
  else mapME (fun j => lookupPalette pal (extractIndex bpp row j)) (List.range w)

/-- Modelled from the spec (§4.5): split the stream into `h` encoded rows of
exactly `padded` bytes each; a stream too short for the next row is a
truncation format error. -/
def readRows (padded : Nat) : Nat → List Nat → Except ImageError (List (List Nat))
  | 0, _ => .ok []
  | n + 1, bs =>
    if bs.length < padded then .error (.FormatError "truncated pixel data")
    else
      match readRows padded n (bs.drop padded) with
      | .error e => .error e
      | .ok rows => .ok (bs.take padded :: rows)

/-- Modelled from the spec (§4.5): orientation correction, applied uniformly
for every bit depth — bottom-up storage (positive height) reverses the rows
as read; top-down storage keeps them. -/
def orient (topDown : Bool) (rows : List (List Pixel)) : List (List Pixel) :=
  if topDown then rows else rows.reverse

/-- Split a flat buffer of `w * h` values into `h` rows of `w`. -/
def chunkRows {α : Type} (w : Nat) : Nat → List α → List (List α)
  | 0, _ => []
  | n + 1, l => l.take w :: chunkRows w n (l.drop w)

/-- Write the values `vs` into `out` at consecutive positions from `p` on. -/
def writeSeq (out : List Nat) (p : Nat) : List Nat → List Nat
  | [] => out
  | v :: vs => writeSeq (out.set p v) (p + 1) vs

/-- The pixel values of an encoded RLE run of length `n` with value byte `v`:
at 4 bpp the run alternates the high and low nibble of `v` starting with the
high one; at 8 bpp all `n` pixels carry `v`. -/
def runVals (four : Bool) (n v : Nat) : List Nat :=
  if four then (List.range n).map fun i => if i % 2 = 0 then v / 16 else v % 16
  else List.replicate n v

/-- The pixel values carried by the literal bytes of an RLE literal run:
nibbles most-significant first at 4 bpp, whole bytes at 8 bpp. -/
def expandLiteral (four : Bool) (bytes : List Nat) : List Nat :=
  if four then (bytes.map fun b => [b % 256 / 16, b % 256 % 16]).flatten
  else bytes.map (· % 256)

/-- Modelled from the spec (§4.3): one state of the RLE decompressor as a
fuel-indexed loop over the compressed stream.  `out` is the zero-initialized
output grid of palette indices, `p` the linear output cursor.  The terminal
state is reached when the cursor reaches exactly `total` emitted pixels; an
end-of-bitmap escape read before that point (on a non-trivial image) is a
format error, as are truncated streams and runs, skips or literal runs that
would move past `total`.  Skipped pixels keep the background value zero.
Each step consumes at least two input bytes, so fuel `bs.length + 1`
(supplied by `rleDecode`) never runs out before the input does. -/
def rleLoop (four : Bool) (w total : Nat) :
    Nat → List Nat → Nat → List Nat → Except ImageError (List Nat)
  | 0, _, _, _ => .error (.FormatError "RLE: out of input")
  | fuel + 1, out, p, bs =>
    if total ≤ p then .ok out
    else
      match bs with
      | [] => .error (.FormatError "RLE: truncated stream")
      | [_] => .error (.FormatError "RLE: truncated stream")
      | b1 :: b2 :: rest =>
        let c1 := b1 % 256
        let c2 := b2 % 256
        if c1 = 0 then
          if c2 = 0 then
            rleLoop four w total fuel out ((p / w + 1) * w) rest
          else if c2 = 1 then
            .error (.FormatError "RLE: premature end of bitmap")
          else if c2 = 2 then
            match rest with
            | dx :: dy :: rest2 =>
              let p2 := p + dy % 256 * w + dx % 256
              if total < p2 then .error (.FormatError "RLE: delta out of range")
              else rleLoop four w total fuel out p2 rest2
            | _ => .error (.FormatError "RLE: truncated delta")
          else
            let nbytes := if four then ((c2 + 1) / 2 + 1) / 2 * 2 else (c2 + 1) / 2 * 2
            if rest.length < nbytes then
              .error (.FormatError "RLE: truncated literal run")
            else if total < p + c2 then
              .error (.FormatError "RLE: literal run past end of bitmap")
            else
              rleLoop four w total fuel
                (writeSeq out p ((expandLiteral four (rest.take nbytes)).take c2))
                (p + c2) (rest.drop nbytes)
        else
          if total < p + c1 then .error (.FormatError "RLE: run past end of bitmap")
          else rleLoop four w total fuel (writeSeq out p (runVals four c1 c2)) (p + c1) rest

/-- Modelled from the spec (§4.3): run the RLE decompressor over the whole
compressed stream, producing the flat `w * h` grid of palette indices in read
(storage) order. -/
def rleDecode (four : Bool) (w h : Nat) (bs : List Nat) : Except ImageError (List Nat) :=
  rleLoop four w (w * h) (bs.length + 1) (List.replicate (w * h) 0) 0 bs

/-- Modelled from the spec (§4.4–§4.5): `BMPDecoder::read_image_data` —
decode all scanlines (decompressing first for the RLE kinds), resolve pixels,
apply the orientation correction, and return the flat row-major pixel buffer.
The buffer is returned only after every row succeeds. -/
def BMPDecoder.read_image_data (dec : BMPDecoder) : Except ImageError (List Pixel) :=
  match dec.desc.compression with
  | .uncompressed =>
    match readRows (paddedRowSize dec.desc.w dec.desc.bpp) dec.desc.h dec.rest with
    | .error e => .error e
    | .ok rows =>
      match mapME (decodeRowPixels dec.palette dec.desc.bpp dec.desc.w) rows with
      | .error e => .error e
      | .ok pixRows => .ok (orient dec.desc.topDown pixRows).flatten
  | .rle8 =>
    match rleDecode false dec.desc.w dec.desc.h dec.rest with
    | .error e => .error e
    | .ok grid =>
      match mapME (lookupPalette dec.palette) grid with
      | .error e => .error e
      | .ok pixList =>
        .ok (orient dec.desc.topDown (chunkRows dec.desc.w dec.desc.h pixList)).flatten
  | .rle4 =>
    match rleDecode true dec.desc.w dec.desc.h dec.rest with
    | .error e => .error e
    | .ok grid =>
      match mapME (lookupPalette dec.palette) grid with
      | .error e => .error e
      | .ok pixList =>
        .ok (orient dec.desc.topDown (chunkRows dec.desc.w dec.desc.h pixList)).flatten

/-- Modelled from the spec (§6): the decode entry point — construct the
decoder from the byte source (header parsing and validation), then read the
image data; returns the resolved descriptor together with the pixel buffer. -/
def decode (bs : List Nat) : Except ImageError (ImageDescriptor × List Pixel) :=
  match BMPDecoder.new bs with
  | .error e => .error e
  | .ok dec =>
    match dec.read_image_data with
    | .error e => .error e
    | .ok pix => .ok (dec.desc, pix)

/-- Modelled from the spec (§6): a byte source either delivers the whole
stream or fails with an underlying I/O error; a failing source makes the
decode fail with that error wrapped through the `From` conversion of
`src/lib.rs`, exactly as the Rust `?` operator does. -/
def decodeFromSource (src : Except IoErr (List Nat)) :
    Except ImageError (ImageDescriptor × List Pixel) :=
  match src with
  | .error e => .error (imageErrorFromIo e)
  | .ok bs => decode bs

/-- Modelled from the spec (§4.6): encode one row of pixels at 24 bpp —
blue-green-red byte order, padded with zeros to the 4-byte row boundary. -/
def encodeRow24 (w : Nat) (row : List Pixel) : List Nat :=
  (row.map fun px => [px.2.2 % 256, px.2.1 % 256, px.1 % 256]).flatten ++
    List.replicate (paddedRowSize w 24 - 3 * w) 0

/-- A header-byte builder used to state claims about crafted headers: 14-byte
file header with the given declared file size and data offset, followed by a
40-byte `BITMAPINFOHEADER` with the given fields, followed by `tail`. -/
def mkBMPHeader (fs : Nat) (w h : Int) (bpp cc cu : Nat) (tail : List Nat) : List Nat :=
  66 :: 77 ::
  fs % 256 :: fs / 256 % 256 :: fs / 65536 % 256 :: fs / 16777216 % 256 ::
  0 :: 0 :: 0 :: 0 ::
  54 :: 0 :: 0 :: 0 ::
  40 :: 0 :: 0 :: 0 ::
  (w % 4294967296).toNat % 256 :: (w % 4294967296).toNat / 256 % 256 ::
    (w % 4294967296).toNat / 65536 % 256 :: (w % 4294967296).toNat / 16777216 % 256 ::
  (h % 4294967296).toNat % 256 :: (h % 4294967296).toNat / 256 % 256 ::
    (h % 4294967296).toNat / 65536 % 256 :: (h % 4294967296).toNat / 16777216 % 256 ::
  1 :: 0 ::
  bpp % 256 :: bpp / 256 % 256 ::
  cc % 256 :: cc / 256 % 256 :: cc / 65536 % 256 :: cc / 16777216 % 256 ::
  0 :: 0 :: 0 :: 0 ::
  0 :: 0 :: 0 :: 0 ::
  0 :: 0 :: 0 :: 0 ::
  cu % 256 :: cu / 256 % 256 :: cu / 65536 % 256 :: cu / 16777216 % 256 ::
  0 :: 0 :: 0 :: 0 :: tail

/-- Modelled from the spec (§4.6): the 24-bpp encoder — validate the
buffer/descriptor combination (format errors only), then emit a 14-byte file
header, a 40-byte info header (the simplest supported variant) with positive
height, and the padded scanlines in bottom-up order.  No palette and no
run-length compression are emitted. -/
def encode24 (w h : Nat) (pix : List Pixel) : Except ImageError (List Nat) :=
  if w = 0 then .error (.FormatError "width must be positive")
  else if h = 0 then .error (.FormatError "height must be nonzero")
  else if pix.length ≠ w * h then .error (.FormatError "pixel buffer size mismatch")
  else if ¬checkImageSize w h 3 then .error (.FormatError "image too large")
  else
    .ok (mkBMPHeader (54 + h * paddedRowSize w 24) (w : Int) (h : Int) 24 0 0
      ((chunkRows w h pix).reverse.map (encodeRow24 w)).flatten)

/-- The validation invariants §4.1 requires of every descriptor the header
parser accepts. -/
def validDescriptor (d : ImageDescriptor) : Prop :=
  0 < d.width ∧ d.height ≠ 0 ∧
    (d.bpp = 1 ∨ d.bpp = 4 ∨ d.bpp = 8 ∨ d.bpp = 16 ∨ d.bpp = 24 ∨ d.bpp = 32) ∧
    (d.compression = .rle8 → d.bpp = 8) ∧
    (d.compression = .rle4 → d.bpp = 4) ∧
    checkImageSize d.w d.h 3 = true

/-- A concrete well-formed 1×1 uncompressed 24-bpp BMP stream (pixel
(r,g,b) = (30,20,10), stored as the padded scanline `[10,20,30,0]`). -/
def sampleBmp24 : List Nat :=
  [66, 77, 58, 0, 0, 0, 0, 0, 0, 0, 54, 0, 0, 0,
   40, 0, 0, 0, 1, 0, 0, 0, 1, 0, 0, 0, 1, 0, 24, 0,
   0, 0, 0, 0, 4, 0, 0, 0, 0, 0, 0, 0, 0, 0, 0, 0, 0, 0, 0, 0, 0, 0, 0, 0,
   10, 20, 30, 0]

/-- A concrete 1×2 uncompressed 24-bpp BMP stream with positive height
(bottom-up storage): the first stored row is the bottom pixel (1,2,3), the
second the top pixel (4,5,6). -/
def sampleBmp2Row : List Nat :=
  [66, 77, 62, 0, 0, 0, 0, 0, 0, 0, 54, 0, 0, 0,
   40, 0, 0, 0, 1, 0, 0, 0, 2, 0, 0, 0, 1, 0, 24, 0,
   0, 0, 0, 0, 8, 0, 0, 0, 0, 0, 0, 0, 0, 0, 0, 0, 0, 0, 0, 0, 0, 0, 0, 0,
   3, 2, 1, 0, 6, 5, 4, 0]

/-- A concrete 1×1 8-bpp BMP stream with a single-entry palette whose sole
pixel carries the palette index given by `idx` (index 0 resolves to the
palette color (9,8,7); any other index is out of range). -/
def sampleBmp8 (idx : Nat) : List Nat :=
  [66, 77, 0, 0, 0, 0, 0, 0, 0, 0, 58, 0, 0, 0,
   40, 0, 0, 0, 1, 0, 0, 0, 1, 0, 0, 0, 1, 0, 8, 0,
   0, 0, 0, 0, 0, 0, 0, 0, 0, 0, 0, 0, 0, 0, 0, 0, 1, 0, 0, 0, 0, 0, 0, 0,
   7, 8, 9, 0,
   idx, 0, 0, 0]

end ImageBmp

/-!
## Helper lemmas
-/

namespace ImageBmp

theorem byteAt_lt (bs : List Nat) (k : Nat) : byteAt bs k < 256 := by
  induction bs generalizing k with
  | nil => simp [byteAt]
  | cons b bs ih =>
    cases k with
    | zero => simp [byteAt]; omega
    | succ k => simpa [byteAt] using ih k

theorem readU32_eq_of_bytes {bs : List Nat} {k m : Nat}
    (h0 : byteAt bs k = m % 256) (h1 : byteAt bs (k + 1) = m / 256 % 256)
    (h2 : byteAt bs (k + 2) = m / 65536 % 256)
    (h3 : byteAt bs (k + 3) = m / 16777216 % 256) (hm : m < 2 ^ 32) :
    readU32 bs k = m := by
  unfold readU32
  rw [h0, h1, h2, h3]
  omega

theorem readU16_eq_of_bytes {bs : List Nat} {k m : Nat}
    (h0 : byteAt bs k = m % 256) (h1 : byteAt bs (k + 1) = m / 256 % 256)
    (hm : m < 2 ^ 16) : readU16 bs k = m := by
  unfold readU16
  rw [h0, h1]
  omega

theorem readI32_eq_of_readU32 {bs : List Nat} {k : Nat} {n : Int}
    (h : (readU32 bs k : Int) = n % 2 ^ 32) (hlo : -2 ^ 31 ≤ n) (hhi : n < 2 ^ 31) :
    readI32 bs k = n := by
  by_cases hc : readU32 bs k < 2 ^ 31 <;> simp [readI32, hc] <;> omega

theorem mapME_ok_length {α β : Type} {f : α → Except ImageError β} {l : List α}
    {out : List β} (h : mapME f l = .ok out) : out.length = l.length := by
  induction l generalizing out with
  | nil => simp [mapME] at h; simp [← h]
  | cons a l ih =>
    simp only [mapME] at h
    cases hfa : f a with
    | error e => rw [hfa] at h; exact absurd h (by simp)
    | ok b =>
      rw [hfa] at h
      cases hrec : mapME f l with
      | error e => rw [hrec] at h; exact absurd h (by simp)
      | ok bs =>
        rw [hrec] at h
        cases h
        simp [ih hrec]

theorem mapME_map_ok {α β : Type} (f : α → β) (l : List α) :
    mapME (fun a => Except.ok (f a)) l = .ok (l.map f) := by
  induction l with
  | nil => rfl
  | cons a l ih => simp [mapME, ih]

theorem mapME_ok_getD {α β : Type} {f : α → Except ImageError β} {l : List α}
    {out : List β} (h : mapME f l = .ok out) (da : α) (db : β) :
    ∀ j, j < l.length → f (l.getD j da) = .ok (out.getD j db) := by
  induction l generalizing out with
  | nil => intro j hj; simp at hj
  | cons a l ih =>
    simp only [mapME] at h
    cases hfa : f a with
    | error e => rw [hfa] at h; exact absurd h (by simp)
    | ok b =>
      rw [hfa] at h
      cases hrec : mapME f l with
      | error e => rw [hrec] at h; exact absurd h (by simp)
      | ok bs =>
        rw [hrec] at h
        cases h
        intro j hj
        cases j with
        | zero => simpa using hfa
        | succ j => exact ih hrec j (by simpa using hj)

theorem mapME_error_of_mem {α β : Type} {f : α → Except ImageError β} {l : List α}
    (E : ImageError)
    (hall : ∀ a ∈ l, f a = .error E ∨ ∃ b, f a = .ok b)
    (hex : ∃ a ∈ l, f a = .error E) : mapME f l = .error E := by
  induction l with
  | nil => simp at hex
  | cons a l ih =>
    simp only [mapME]
    cases hfa : f a with
    | error e =>
      have := hall a (by simp)
      rcases this with h | ⟨b, hb⟩
      · rw [hfa] at h; cases h; rfl
      · rw [hfa] at hb; exact absurd hb (by simp)
    | ok b =>
      obtain ⟨x, hx, hxe⟩ := hex
      rcases List.mem_cons.mp hx with rfl | hxl
      · rw [hfa] at hxe; exact absurd hxe (by simp)
      · rw [ih (fun a ha => hall a (by simp [ha])) ⟨x, hxl, hxe⟩]

end ImageBmp

namespace ImageBmp

theorem decodeRow24_length (n : Nat) (row : List Nat) : (decodeRow24 n row).length = n := by
  induction n generalizing row with
  | zero => rfl
  | succ n ih => simp [decodeRow24, ih]

theorem decodeRow16_length (n : Nat) (row : List Nat) : (decodeRow16 n row).length = n := by
  induction n generalizing row with
  | zero => rfl
  | succ n ih => simp [decodeRow16, ih]

theorem decodeRow32_length (n : Nat) (row : List Nat) : (decodeRow32 n row).length = n := by
  induction n generalizing row with
  | zero => rfl
  | succ n ih => simp [decodeRow32, ih]

theorem decodeRowPixels_ok_length {pal : List Pixel} {bpp w : Nat} {row : List Nat}
    {out : List Pixel} (h : decodeRowPixels pal bpp w row = .ok out) : out.length = w := by
  unfold decodeRowPixels at h
  split at h
  · cases h; exact decodeRow24_length w row
  · split at h
    · cases h; exact decodeRow16_length w row
    · split at h
      · cases h; exact decodeRow32_length w row
      · have := mapME_ok_length h
        simpa using this

theorem readRows_ok {padded n : Nat} {bs : List Nat} {rows : List (List Nat)}
    (h : readRows padded n bs = .ok rows) :
    rows.length = n ∧ ∀ j, j < n → rows.getD j [] = (bs.drop (j * padded)).take padded := by
  induction n generalizing bs rows with
  | zero =>
    simp only [readRows] at h
    cases h
    exact ⟨rfl, by intro j hj; omega⟩
  | succ n ih =>
    simp only [readRows] at h
    split at h
    · exact absurd h (by simp)
    · cases hrec : readRows padded n (bs.drop padded) with
      | error e => rw [hrec] at h; exact absurd h (by simp)
      | ok rows' =>
        rw [hrec] at h
        cases h
        obtain ⟨hlen, hget⟩ := ih hrec
        refine ⟨by simp [hlen], ?_⟩
        intro j hj
        cases j with
        | zero => simp
        | succ j =>
          have := hget j (by omega)
          simp only [List.getD_cons_succ, this, List.drop_drop]
          congr 2
          ring

theorem readRows_flatten {padded : Nat} (rows : List (List Nat))
    (hlen : ∀ r ∈ rows, r.length = padded) :
    readRows padded rows.length rows.flatten = .ok rows := by
  induction rows with
  | nil => rfl
  | cons r rows ih =>
    have hr : r.length = padded := hlen r (by simp)
    simp only [List.length_cons, List.flatten_cons, readRows]
    rw [if_neg (by simp [hr])]
    rw [List.drop_left' hr, ih (fun r hr => hlen r (by simp [hr])), List.take_left' hr]

theorem chunkRows_length {α : Type} (w h : Nat) (l : List α) :
    (chunkRows w h l).length = h := by
  induction h generalizing l with
  | zero => rfl
  | succ h ih => simp [chunkRows, ih]

theorem chunkRows_flatten {α : Type} {w h : Nat} {l : List α} (hl : l.length = w * h) :
    (chunkRows w h l).flatten = l := by
  induction h generalizing l with
  | zero =>
    simp only [Nat.mul_zero] at hl
    simp [chunkRows, List.eq_nil_of_length_eq_zero hl]
  | succ h ih =>
    simp only [chunkRows, List.flatten_cons]
    rw [ih (by simp [hl, Nat.mul_succ]), List.take_append_drop]

theorem chunkRows_row_length {α : Type} {w h : Nat} {l : List α} (hl : l.length = w * h) :
    ∀ r ∈ chunkRows w h l, r.length = w := by
  induction h generalizing l with
  | zero => simp [chunkRows]
  | succ h ih =>
    intro r hr
    simp only [chunkRows, List.mem_cons] at hr
    rcases hr with rfl | hr
    · simp [hl, Nat.mul_succ]
    · exact ih (by simp [hl, Nat.mul_succ]) r hr

theorem mem_chunkRows {α : Type} {w h : Nat} {l : List α} {r : List α}
    (hr : r ∈ chunkRows w h l) : ∀ x ∈ r, x ∈ l := by
  induction h generalizing l with
  | zero => simp [chunkRows] at hr
  | succ h ih =>
    simp only [chunkRows, List.mem_cons] at hr
    rcases hr with rfl | hr
    · exact fun x hx => List.take_subset _ _ hx
    · exact fun x hx => List.drop_subset _ _ (ih hr x hx)

theorem flatten_length_const {α : Type} {w : Nat} {rows : List (List α)}
    (h : ∀ r ∈ rows, r.length = w) : rows.flatten.length = rows.length * w := by
  induction rows with
  | nil => simp
  | cons r rows ih =>
    simp only [List.flatten_cons, List.length_append, List.length_cons]
    rw [h r (by simp), ih (fun r hr => h r (by simp [hr]))]
    ring

theorem flatten_row_slice {α : Type} {w : Nat} {rows : List (List α)}
    (h : ∀ r ∈ rows, r.length = w) :
    ∀ i, i < rows.length → (rows.flatten.drop (i * w)).take w = rows.getD i [] := by
  induction rows with
  | nil => intro i hi; simp at hi
  | cons r rows ih =>
    intro i hi
    cases i with
    | zero =>
      have hr : r.length = w := h r (by simp)
      simp only [List.flatten_cons, Nat.zero_mul, List.drop_zero, List.getD_cons_zero]
      exact List.take_left' hr
    | succ i =>
      have hr : r.length = w := h r (by simp)
      simp only [List.flatten_cons, List.getD_cons_succ]
      rw [show (i + 1) * w = w + i * w by ring, ← List.drop_drop, List.drop_left' hr]
      exact ih (fun r hr => h r (by simp [hr])) i (by simpa using hi)

theorem getD_reverse {α : Type} (l : List (List α)) (i : Nat) (hi : i < l.length) :
    l.reverse.getD i [] = l.getD (l.length - 1 - i) [] := by
  rw [List.getD_eq_getElem l [] (by omega), List.getD_eq_getElem l.reverse [] (by simpa using hi)]
  rw [List.getElem_reverse]

end ImageBmp

namespace ImageBmp

theorem writeSeq_length (vs : List Nat) (out : List Nat) (p : Nat) :
    (writeSeq out p vs).length = out.length := by
  induction vs generalizing out p with
  | nil => rfl
  | cons v vs ih => simp [writeSeq, ih]

theorem rleLoop_ok_length {four : Bool} {w total fuel : Nat} {out : List Nat}
    {p : Nat} {bs : List Nat} {res : List Nat}
    (h : rleLoop four w total fuel out p bs = .ok res) : res.length = out.length := by
  induction fuel generalizing out p bs with
  | zero => exact absurd h (by simp [rleLoop])
  | succ fuel ih =>
    simp only [rleLoop] at h
    repeat' split at h
    all_goals
      first
        | (cases h <;> rfl)
        | exact ih h
        | (have hws := ih h; rwa [writeSeq_length] at hws)

theorem rleDecode_ok_length {four : Bool} {w h : Nat} {bs : List Nat} {res : List Nat}
    (hok : rleDecode four w h bs = .ok res) : res.length = w * h := by
  have := rleLoop_ok_length hok
  simpa using this

end ImageBmp

namespace ImageBmp

theorem mapME_ok_forall_mem {α β : Type} {f : α → Except ImageError β} {l : List α}
    {out : List β} (h : mapME f l = .ok out) : ∀ b ∈ out, ∃ a ∈ l, f a = .ok b := by
  induction l generalizing out with
  | nil => simp [mapME] at h; simp [h]
  | cons a l ih =>
    simp only [mapME] at h
    cases hfa : f a with
    | error e => rw [hfa] at h; exact absurd h (by simp)
    | ok b =>
      rw [hfa] at h
      cases hrec : mapME f l with
      | error e => rw [hrec] at h; exact absurd h (by simp)
      | ok bs =>
        rw [hrec] at h
        cases h
        intro x hx
        rcases List.mem_cons.mp hx with rfl | hx
        · exact ⟨a, by simp, hfa⟩
        · obtain ⟨a', ha', hfa'⟩ := ih hrec x hx
          exact ⟨a', by simp [ha'], hfa'⟩

theorem parseCompression_ok {code bpp : Nat} {comp : CompressionKind}
    (h : parseCompression code bpp = .ok comp) :
    (comp = .rle8 → bpp = 8) ∧ (comp = .rle4 → bpp = 4) := by
  unfold parseCompression at h
  repeat' split at h
  all_goals cases h
  all_goals simp_all

end ImageBmp

/-!
## Claim theorems
-/

namespace ImageBmp

/-- C4: Every error produced by the decode or encode operations is one of
exactly three kinds — format error, unsupported error, or I/O error; the
public error type `ImageError` (the error type of `decode`, `encode24` and
`decodeFromSource`) has no further kind. -/
theorem error_kinds_exhaustive (e : ImageError) :
    (∃ s, e = .FormatError s) ∨ (∃ s, e = .UnsupportedError s) ∨
      (∃ io, e = .IoError io) := by
  cases e with
  | FormatError s => exact Or.inl ⟨s, rfl⟩
  | UnsupportedError s => exact Or.inr (Or.inl ⟨s, rfl⟩)
  | IoError io => exact Or.inr (Or.inr ⟨io, rfl⟩)

/-- C9: An I/O failure of the underlying byte source surfaces as the I/O
error kind, wrapping the original error unchanged; the `From` conversion of
`src/lib.rs` never produces the format-error or unsupported-error kind. -/
theorem io_error_passthrough :
    (∀ e : IoErr, imageErrorFromIo e = .IoError e) ∧
    (∀ e : IoErr, decodeFromSource (.error e) = .error (.IoError e)) ∧
    (∀ (e : IoErr) (s : String), imageErrorFromIo e ≠ .FormatError s) ∧
    (∀ (e : IoErr) (s : String), imageErrorFromIo e ≠ .UnsupportedError s) := by
  refine ⟨fun e => rfl, fun e => rfl, fun e s => ?_, fun e s => ?_⟩ <;>
    simp [imageErrorFromIo]

/-- C6: The RLE decompressor terminates exactly when the output cursor
reaches width×height emitted pixels (a successful result always carries
exactly width×height values, and nothing is read past that point); an
end-of-bitmap escape read before width×height pixels have been emitted on a
non-trivial image is a format error; a stream exhausted mid-run is a format
error rather than an under-filled row; a run that would emit past
width×height is a format error; and a stream consisting solely of an
end-of-bitmap marker decodes cleanly to zero pixels for a trivial
(zero-pixel) image. -/
theorem rle_terminal_behavior :
    (∀ (four : Bool) (w h : Nat) (bs out : List Nat),
        rleDecode four w h bs = .ok out → out.length = w * h) ∧
    (∀ (four : Bool) (w h : Nat) (rest : List Nat), 0 < w * h →
        rleDecode four w h (0 :: 1 :: rest) =
          .error (.FormatError "RLE: premature end of bitmap")) ∧
    (∀ (four : Bool) (w h : Nat), 0 < w * h →
        rleDecode four w h [] = .error (.FormatError "RLE: truncated stream")) ∧
    (∀ (four : Bool) (w h b : Nat), 0 < w * h →
        rleDecode four w h [b] = .error (.FormatError "RLE: truncated stream")) ∧
    (∀ (four : Bool) (w : Nat), rleDecode four w 0 [0, 1] = .ok []) ∧
    (∀ (four : Bool) (w h n v : Nat) (rest : List Nat), 0 < w * h → n ≤ 255 → w * h < n →
        rleDecode four w h (n :: v :: rest) =
          .error (.FormatError "RLE: run past end of bitmap")) := by
  refine ⟨fun four w h bs out hok => rleDecode_ok_length hok, ?_, ?_, ?_, ?_, ?_⟩
  · intro four w h rest hpos
    simp only [rleDecode, rleLoop]
    rw [if_neg (by omega)]
    norm_num
  · intro four w h hpos
    simp only [rleDecode, rleLoop]
    rw [if_neg (by omega)]
  · intro four w h b hpos
    simp only [rleDecode, rleLoop]
    rw [if_neg (by omega)]
  · intro four w
    simp [rleDecode, rleLoop]
  · intro four w h n v rest hpos hn255 hsmall
    simp only [rleDecode, rleLoop]
    rw [if_neg (by omega)]
    have hmod : n % 256 = n := Nat.mod_eq_of_lt (by omega)
    simp only [hmod]
    rw [if_neg (show ¬(n = 0) by omega)]
    rw [if_pos (show w * h < 0 + n by omega)]

/-- Witness for C6 at concrete inputs: a premature end-of-bitmap marker on a
2×2 image is rejected, the trivial zero-pixel image decodes cleanly, and a
truncated stream is a format error. -/
theorem rle_terminal_behavior_witness :
    rleDecode false 2 2 [0, 1] = .error (.FormatError "RLE: premature end of bitmap") ∧
    rleDecode false 2 0 [0, 1] = .ok [] ∧
    rleDecode false 2 2 [] = .error (.FormatError "RLE: truncated stream") :=
  ⟨rle_terminal_behavior.2.1 false 2 2 [] (by decide),
   rle_terminal_behavior.2.2.2.2.1 false 2,
   rle_terminal_behavior.2.2.1 false 2 2 (by decide)⟩

end ImageBmp

namespace ImageBmp

/-- C8: At the indexed bit depths (1, 4, 8), a pixel value at or past the
actual palette length is a format error during pixel resolution — the
palette lookup is bounds-checked (never an out-of-bounds read), the error
propagates through the row decoder, and concretely a 1×1 8-bpp image whose
pixel carries index 5 against a single-entry palette fails to decode with
that format error while index 0 decodes fine. -/
theorem palette_bounds_checked :
    (∀ (pal : List Pixel) (i : Nat), pal.length ≤ i →
        lookupPalette pal i = .error (.FormatError "palette index out of range")) ∧
    (∀ (pal : List Pixel) (bpp w : Nat) (row : List Nat),
        (bpp = 1 ∨ bpp = 4 ∨ bpp = 8) →
        (∃ j, j < w ∧ pal.length ≤ extractIndex bpp row j) →
        decodeRowPixels pal bpp w row =
          .error (.FormatError "palette index out of range")) ∧
    decode (sampleBmp8 5) = .error (.FormatError "palette index out of range") ∧
    decode (sampleBmp8 0) =
      .ok (⟨1, 1, 8, .uncompressed, 1, 58⟩, [(9, 8, 7)]) := by
  refine ⟨?_, ?_, rfl, rfl⟩
  · intro pal i hi
    unfold lookupPalette
    rw [if_neg (by omega)]
  · intro pal bpp w row hbpp ⟨j, hj, hidx⟩
    have h24 : bpp ≠ 24 := by rcases hbpp with rfl | rfl | rfl <;> decide
    have h16 : bpp ≠ 16 := by rcases hbpp with rfl | rfl | rfl <;> decide
    have h32 : bpp ≠ 32 := by rcases hbpp with rfl | rfl | rfl <;> decide
    unfold decodeRowPixels
    rw [if_neg h24, if_neg h16, if_neg h32]
    apply mapME_error_of_mem
    · intro a _
      unfold lookupPalette
      split
      · exact Or.inr ⟨_, rfl⟩
      · exact Or.inl rfl
    · refine ⟨j, List.mem_range.mpr hj, ?_⟩
      unfold lookupPalette
      rw [if_neg (by omega)]

/-- Witness for C8: the bounds-checked lookup applied at a concrete
out-of-range index, and the row decoder applied at a concrete out-of-range
row. -/
theorem palette_bounds_checked_witness :
    lookupPalette [(9, 8, 7)] 5 = .error (.FormatError "palette index out of range") ∧
    decodeRowPixels [(9, 8, 7)] 8 1 [5] =
      .error (.FormatError "palette index out of range") :=
  ⟨palette_bounds_checked.1 [(9, 8, 7)] 5 (by decide),
   palette_bounds_checked.2.1 [(9, 8, 7)] 8 1 [5] (by decide)
     ⟨0, by decide, by decide⟩⟩

end ImageBmp

namespace ImageBmp

theorem orient_length (td : Bool) (rows : List (List Pixel)) :
    (orient td rows).length = rows.length := by
  unfold orient
  split <;> simp

theorem orient_mem {td : Bool} {rows : List (List Pixel)} {r : List Pixel}
    (h : r ∈ orient td rows) : r ∈ rows := by
  unfold orient at h
  split at h <;> simp_all

theorem read_image_data_length {dec : BMPDecoder} {pix : List Pixel}
    (h : dec.read_image_data = .ok pix) : pix.length = dec.desc.h * dec.desc.w := by
  unfold BMPDecoder.read_image_data at h
  split at h
  · -- uncompressed
    cases hrows : readRows (paddedRowSize dec.desc.w dec.desc.bpp) dec.desc.h dec.rest with
    | error e => rw [hrows] at h; exact absurd h (by simp)
    | ok rows =>
      rw [hrows] at h
      dsimp only at h
      cases hmap : mapME (decodeRowPixels dec.palette dec.desc.bpp dec.desc.w) rows with
      | error e => rw [hmap] at h; exact absurd h (by simp)
      | ok pixRows =>
        rw [hmap] at h
        dsimp only at h
        cases h
        have hrl : ∀ r ∈ pixRows, r.length = dec.desc.w := by
          intro r hr
          obtain ⟨row, _, hrow⟩ := mapME_ok_forall_mem hmap r hr
          exact decodeRowPixels_ok_length hrow
        have hcount : pixRows.length = dec.desc.h := by
          rw [mapME_ok_length hmap, (readRows_ok hrows).1]
        rw [flatten_length_const (w := dec.desc.w) (fun r hr => hrl r (orient_mem hr)),
          orient_length, hcount]
  · -- rle8
    cases hgrid : rleDecode false dec.desc.w dec.desc.h dec.rest with
    | error e => rw [hgrid] at h; exact absurd h (by simp)
    | ok grid =>
      rw [hgrid] at h
      dsimp only at h
      cases hmap : mapME (lookupPalette dec.palette) grid with
      | error e => rw [hmap] at h; exact absurd h (by simp)
      | ok pixList =>
        rw [hmap] at h
        dsimp only at h
        cases h
        have hlen : pixList.length = dec.desc.w * dec.desc.h := by
          rw [mapME_ok_length hmap, rleDecode_ok_length hgrid]
        rw [flatten_length_const (w := dec.desc.w)
            (fun r hr => chunkRows_row_length hlen r (orient_mem hr)),
          orient_length, chunkRows_length]
  · -- rle4
    cases hgrid : rleDecode true dec.desc.w dec.desc.h dec.rest with
    | error e => rw [hgrid] at h; exact absurd h (by simp)
    | ok grid =>
      rw [hgrid] at h
      dsimp only at h
      cases hmap : mapME (lookupPalette dec.palette) grid with
      | error e => rw [hmap] at h; exact absurd h (by simp)
      | ok pixList =>
        rw [hmap] at h
        dsimp only at h
        cases h
        have hlen : pixList.length = dec.desc.w * dec.desc.h := by
          rw [mapME_ok_length hmap, rleDecode_ok_length hgrid]
        rw [flatten_length_const (w := dec.desc.w)
            (fun r hr => chunkRows_row_length hlen r (orient_mem hr)),
          orient_length, chunkRows_length]

theorem decode_ok_parts {bs : List Nat} {d : ImageDescriptor} {pix : List Pixel}
    (h : decode bs = .ok (d, pix)) :
    ∃ dec : BMPDecoder, BMPDecoder.new bs = .ok dec ∧ dec.desc = d ∧
      dec.read_image_data = .ok pix := by
  unfold decode at h
  cases hnew : BMPDecoder.new bs with
  | error e => rw [hnew] at h; exact absurd h (by simp)
  | ok dec =>
    rw [hnew] at h
    dsimp only at h
    cases hread : dec.read_image_data with
    | error e => rw [hread] at h; exact absurd h (by simp)
    | ok pix' =>
      rw [hread] at h
      dsimp only at h
      simp only [Except.ok.injEq, Prod.mk.injEq] at h
      obtain ⟨rfl, rfl⟩ := h
      exact ⟨dec, rfl, rfl, hread⟩

/-- C2: The decode entry point either fails or returns a pixel buffer of
length exactly width×height (rows times columns of the resolved descriptor);
a partial buffer is never returned. -/
theorem decode_returns_full_buffer (bs : List Nat) (d : ImageDescriptor)
    (pix : List Pixel) (h : decode bs = .ok (d, pix)) :
    pix.length = d.w * d.h := by
  obtain ⟨dec, _, rfl, hread⟩ := decode_ok_parts h
  rw [read_image_data_length hread, Nat.mul_comm]

/-- Witness for C2 at a concrete stream: the 1×1 sample image decodes to a
buffer of length exactly 1×1. -/
theorem decode_returns_full_buffer_witness :
    ([((30 : Nat), (20 : Nat), (10 : Nat))] : List Pixel).length =
      (ImageDescriptor.mk 1 1 24 .uncompressed 0 54).w *
        (ImageDescriptor.mk 1 1 24 .uncompressed 0 54).h :=
  decode_returns_full_buffer sampleBmp24 _ _ rfl

end ImageBmp

namespace ImageBmp

theorem new_ok_validDescriptor {bs : List Nat} {dec : BMPDecoder}
    (h : BMPDecoder.new bs = .ok dec) : validDescriptor dec.desc := by
  rw [BMPDecoder.new] at h
  by_cases h1 : bs.length < 14
  · rw [if_pos h1] at h; exact Except.noConfusion h
  rw [if_neg h1] at h
  by_cases h2 : ¬(byteAt bs 0 = 66 ∧ byteAt bs 1 = 77)
  · rw [if_pos h2] at h; exact Except.noConfusion h
  rw [if_neg h2] at h
  by_cases h3 : bs.length < 54
  · rw [if_pos h3] at h; exact Except.noConfusion h
  rw [if_neg h3] at h
  by_cases h4 : readU32 bs 14 ≠ 40
  · rw [if_pos h4] at h; exact Except.noConfusion h
  rw [if_neg h4] at h
  by_cases h5 : readI32 bs 18 ≤ 0
  · rw [if_pos h5] at h; exact Except.noConfusion h
  rw [if_neg h5] at h
  by_cases h6 : readI32 bs 22 = 0
  · rw [if_pos h6] at h; exact Except.noConfusion h
  rw [if_neg h6] at h
  by_cases h7 : ¬(readU16 bs 28 = 1 ∨ readU16 bs 28 = 4 ∨ readU16 bs 28 = 8 ∨
      readU16 bs 28 = 16 ∨ readU16 bs 28 = 24 ∨ readU16 bs 28 = 32)
  · rw [if_pos h7] at h; exact Except.noConfusion h
  rw [if_neg h7] at h
  cases hcomp : parseCompression (readU32 bs 30) (readU16 bs 28) with
  | error e => rw [hcomp] at h; exact Except.noConfusion h
  | ok comp =>
    rw [hcomp] at h
    dsimp only at h
    obtain ⟨hc8, hc4⟩ := parseCompression_ok hcomp
    by_cases h8 : ¬checkImageSize (readI32 bs 18).toNat (readI32 bs 22).natAbs 3 = true
    · rw [if_pos h8] at h; exact Except.noConfusion h
    rw [if_neg h8] at h
    by_cases h9 : readU16 bs 28 ≤ 8
    · rw [if_pos h9] at h
      by_cases h10 : bs.length <
          54 + (if readU32 bs 46 = 0 then 2 ^ readU16 bs 28 else readU32 bs 46) * 4
      · rw [if_pos h10] at h; exact Except.noConfusion h
      rw [if_neg h10] at h
      cases h
      dsimp only [validDescriptor, ImageDescriptor.w, ImageDescriptor.h]
      exact ⟨by omega, h6, not_not.mp h7, hc8, hc4, not_not.mp h8⟩
    · rw [if_neg h9] at h
      cases h
      dsimp only [validDescriptor, ImageDescriptor.w, ImageDescriptor.h]
      exact ⟨by omega, h6, not_not.mp h7, hc8, hc4, not_not.mp h8⟩

/-- C10: Decoding is split into two public steps: the fallible constructor
`BMPDecoder.new` performs all header parsing and validation, so any
successfully constructed decoder already satisfies every §4.1 validation
invariant (a malformed or oversized header is rejected at construction,
before any image data is read), and a constructor failure is exactly the
error `decode` reports; `read_image_data` then produces the pixel buffer and
`decode` is precisely the composition of the two steps. -/
theorem two_step_decode :
    (∀ (bs : List Nat) (e : ImageError),
        BMPDecoder.new bs = .error e → decode bs = .error e) ∧
    (∀ (bs : List Nat) (dec : BMPDecoder), BMPDecoder.new bs = .ok dec →
        validDescriptor dec.desc ∧
          decode bs = (dec.read_image_data.map fun pix => (dec.desc, pix))) := by
  constructor
  · intro bs e h
    unfold decode
    rw [h]
  · intro bs dec h
    refine ⟨new_ok_validDescriptor h, ?_⟩
    unfold decode
    rw [h]
    dsimp only
    cases dec.read_image_data <;> rfl

/-- Witness for C10: applied to the concrete 1×1 sample image (whose
construction succeeds) and to a stream with a bad signature (whose
construction fails). -/
theorem two_step_decode_witness :
    (validDescriptor (ImageDescriptor.mk 1 1 24 .uncompressed 0 54) ∧
      decode sampleBmp24 =
        ((BMPDecoder.mk (ImageDescriptor.mk 1 1 24 .uncompressed 0 54) []
            [10, 20, 30, 0]).read_image_data.map
          fun pix => (ImageDescriptor.mk 1 1 24 .uncompressed 0 54, pix))) ∧
    decode (List.replicate 54 0) = .error (.FormatError "BMP signature not found") :=
  ⟨two_step_decode.2 sampleBmp24
      (BMPDecoder.mk (ImageDescriptor.mk 1 1 24 .uncompressed 0 54) [] [10, 20, 30, 0]) rfl,
   two_step_decode.1 (List.replicate 54 0) (.FormatError "BMP signature not found") rfl⟩

end ImageBmp

namespace ImageBmp

set_option maxHeartbeats 1000000 in
theorem new_mkBMPHeader (fs : Nat) (w h : Int) (bpp cc cu : Nat) (tail : List Nat)
    (hwlo : -2 ^ 31 ≤ w) (hwhi : w < 2 ^ 31) (hhlo : -2 ^ 31 ≤ h) (hhhi : h < 2 ^ 31)
    (hbpp : bpp < 2 ^ 16) (hcc : cc < 2 ^ 32) (hcu : cu < 2 ^ 32) :
    BMPDecoder.new (mkBMPHeader fs w h bpp cc cu tail) =
      (if w ≤ 0 then .error (.FormatError "width must be positive")
       else if h = 0 then .error (.FormatError "height must be nonzero")
       else if ¬(bpp = 1 ∨ bpp = 4 ∨ bpp = 8 ∨ bpp = 16 ∨ bpp = 24 ∨ bpp = 32) then
         .error (.FormatError "unsupported bits per pixel")
       else
         match parseCompression cc bpp with
         | .error e => .error e
         | .ok comp =>
           if ¬checkImageSize w.toNat h.natAbs 3 then
             .error (.FormatError "image too large")
           else if bpp ≤ 8 then
             if 54 + tail.length < 54 + (if cu = 0 then 2 ^ bpp else cu) * 4 then
               .error (.FormatError "truncated palette")
             else
               .ok ⟨⟨w, h, bpp, comp, cu, 54⟩,
                 readPalette (mkBMPHeader fs w h bpp cc cu tail)
                   (if cu = 0 then 2 ^ bpp else cu), tail⟩
           else .ok ⟨⟨w, h, bpp, comp, cu, 54⟩, [], tail⟩) := by
  have hlen : (mkBMPHeader fs w h bpp cc cu tail).length = 54 + tail.length := by
    simp [mkBMPHeader, writeU32, writeI32, writeU16]
    omega
  have sig0 : byteAt (mkBMPHeader fs w h bpp cc cu tail) 0 = 66 := by simp [mkBMPHeader, writeU32, writeI32, writeU16, byteAt]
  have sig1 : byteAt (mkBMPHeader fs w h bpp cc cu tail) 1 = 77 := by simp [mkBMPHeader, writeU32, writeI32, writeU16, byteAt]
  have hb14 : readU32 (mkBMPHeader fs w h bpp cc cu tail) 14 = 40 := by simp [mkBMPHeader, writeU32, writeI32, writeU16, byteAt, readU32]
  have hb10 : readU32 (mkBMPHeader fs w h bpp cc cu tail) 10 = 54 := by simp [mkBMPHeader, writeU32, writeI32, writeU16, byteAt, readU32]
  have e18 : readU32 (mkBMPHeader fs w h bpp cc cu tail) 18 = (w % (4294967296 : Int)).toNat := by
    have b0 : byteAt (mkBMPHeader fs w h bpp cc cu tail) 18 = (w % (4294967296 : Int)).toNat % 256 % 256 := by simp [mkBMPHeader, writeU32, writeI32, writeU16, byteAt]
    have b1 : byteAt (mkBMPHeader fs w h bpp cc cu tail) 19 = (w % (4294967296 : Int)).toNat / 256 % 256 % 256 := by simp [mkBMPHeader, writeU32, writeI32, writeU16, byteAt]
    have b2 : byteAt (mkBMPHeader fs w h bpp cc cu tail) 20 = (w % (4294967296 : Int)).toNat / 65536 % 256 % 256 := by simp [mkBMPHeader, writeU32, writeI32, writeU16, byteAt]
    have b3 : byteAt (mkBMPHeader fs w h bpp cc cu tail) 21 = (w % (4294967296 : Int)).toNat / 16777216 % 256 % 256 := by simp [mkBMPHeader, writeU32, writeI32, writeU16, byteAt]
    simp only [readU32]
    norm_num
    omega
  have e22 : readU32 (mkBMPHeader fs w h bpp cc cu tail) 22 = (h % (4294967296 : Int)).toNat := by
    have b0 : byteAt (mkBMPHeader fs w h bpp cc cu tail) 22 = (h % (4294967296 : Int)).toNat % 256 % 256 := by simp [mkBMPHeader, writeU32, writeI32, writeU16, byteAt]
    have b1 : byteAt (mkBMPHeader fs w h bpp cc cu tail) 23 = (h % (4294967296 : Int)).toNat / 256 % 256 % 256 := by simp [mkBMPHeader, writeU32, writeI32, writeU16, byteAt]
    have b2 : byteAt (mkBMPHeader fs w h bpp cc cu tail) 24 = (h % (4294967296 : Int)).toNat / 65536 % 256 % 256 := by simp [mkBMPHeader, writeU32, writeI32, writeU16, byteAt]
    have b3 : byteAt (mkBMPHeader fs w h bpp cc cu tail) 25 = (h % (4294967296 : Int)).toNat / 16777216 % 256 % 256 := by simp [mkBMPHeader, writeU32, writeI32, writeU16, byteAt]
    simp only [readU32]
    norm_num
    omega
  have hw18 : readI32 (mkBMPHeader fs w h bpp cc cu tail) 18 = w := by
    apply readI32_eq_of_readU32 _ hwlo hwhi
    rw [e18]
    omega
  have hh22 : readI32 (mkBMPHeader fs w h bpp cc cu tail) 22 = h := by
    apply readI32_eq_of_readU32 _ hhlo hhhi
    rw [e22]
    omega
  have hbpp28 : readU16 (mkBMPHeader fs w h bpp cc cu tail) 28 = bpp := by
    have b0 : byteAt (mkBMPHeader fs w h bpp cc cu tail) 28 = bpp % 256 % 256 := by simp [mkBMPHeader, writeU32, writeI32, writeU16, byteAt]
    have b1 : byteAt (mkBMPHeader fs w h bpp cc cu tail) 29 = bpp / 256 % 256 % 256 := by simp [mkBMPHeader, writeU32, writeI32, writeU16, byteAt]
    simp only [readU16]
    norm_num
    omega
  have hcc30 : readU32 (mkBMPHeader fs w h bpp cc cu tail) 30 = cc := by
    have b0 : byteAt (mkBMPHeader fs w h bpp cc cu tail) 30 = cc % 256 % 256 := by simp [mkBMPHeader, writeU32, writeI32, writeU16, byteAt]
    have b1 : byteAt (mkBMPHeader fs w h bpp cc cu tail) 31 = cc / 256 % 256 % 256 := by simp [mkBMPHeader, writeU32, writeI32, writeU16, byteAt]
    have b2 : byteAt (mkBMPHeader fs w h bpp cc cu tail) 32 = cc / 65536 % 256 % 256 := by simp [mkBMPHeader, writeU32, writeI32, writeU16, byteAt]
    have b3 : byteAt (mkBMPHeader fs w h bpp cc cu tail) 33 = cc / 16777216 % 256 % 256 := by simp [mkBMPHeader, writeU32, writeI32, writeU16, byteAt]
    simp only [readU32]
    norm_num
    omega
  have hcu46 : readU32 (mkBMPHeader fs w h bpp cc cu tail) 46 = cu := by
    have b0 : byteAt (mkBMPHeader fs w h bpp cc cu tail) 46 = cu % 256 % 256 := by simp [mkBMPHeader, writeU32, writeI32, writeU16, byteAt]
    have b1 : byteAt (mkBMPHeader fs w h bpp cc cu tail) 47 = cu / 256 % 256 % 256 := by simp [mkBMPHeader, writeU32, writeI32, writeU16, byteAt]
    have b2 : byteAt (mkBMPHeader fs w h bpp cc cu tail) 48 = cu / 65536 % 256 % 256 := by simp [mkBMPHeader, writeU32, writeI32, writeU16, byteAt]
    have b3 : byteAt (mkBMPHeader fs w h bpp cc cu tail) 49 = cu / 16777216 % 256 % 256 := by simp [mkBMPHeader, writeU32, writeI32, writeU16, byteAt]
    simp only [readU32]
    norm_num
    omega
  have hdrop : (mkBMPHeader fs w h bpp cc cu tail).drop 54 = tail := by simp [mkBMPHeader, writeU32, writeI32, writeU16]
  rw [BMPDecoder.new]
  rw [hlen, sig0, sig1, hb14, hb10, hw18, hh22, hbpp28, hcc30, hcu46, hdrop]
  rw [if_neg (show ¬(54 + tail.length < 14) by omega)]
  rw [if_neg (show ¬¬(66 = 66 ∧ 77 = 77) by simp)]
  rw [if_neg (show ¬(54 + tail.length < 54) by omega)]
  rw [if_neg (show ¬(40 ≠ 40) by simp)]

end ImageBmp

namespace ImageBmp

/-- C1: A header whose width, height and channel count make the required
pixel-buffer byte bound (width × height × 3) exceed the configured ceiling,
or overflow the 64-bit arithmetic width, is rejected with a format error by
the decoder constructor — before any pixel data is consumed and before any
buffer proportional to width×height exists — for every value of the declared
file-size field and regardless of how many data bytes follow the header; the
decode entry point reports the same format error. -/
theorem oversized_header_rejected (fs w h bpp : Nat) (junk : List Nat)
    (hw0 : 0 < w) (hwhi : w < 2 ^ 31) (hh0 : 0 < h) (hhhi : h < 2 ^ 31)
    (hbpp : bpp = 1 ∨ bpp = 4 ∨ bpp = 8 ∨ bpp = 16 ∨ bpp = 24 ∨ bpp = 32)
    (hbig : sizeCeiling < w * h * 3 ∨ 2 ^ 64 ≤ w * h * 3) :
    BMPDecoder.new (mkBMPHeader fs (w : Int) (h : Int) bpp 0 0 junk) =
        .error (.FormatError "image too large") ∧
      decode (mkBMPHeader fs (w : Int) (h : Int) bpp 0 0 junk) =
        .error (.FormatError "image too large") := by
  have hnew := new_mkBMPHeader fs (w : Int) (h : Int) bpp 0 0 junk
    (by omega) (by exact_mod_cast hwhi) (by omega) (by exact_mod_cast hhhi)
    (by omega) (by norm_num) (by norm_num)
  rw [if_neg (show ¬((w : Int) ≤ 0) by exact_mod_cast not_le.mpr (by exact_mod_cast hw0)),
    if_neg (show ¬((h : Int) = 0) by omega),
    if_neg (show ¬¬(bpp = 1 ∨ bpp = 4 ∨ bpp = 8 ∨ bpp = 16 ∨ bpp = 24 ∨ bpp = 32) from
      not_not.mpr hbpp),
    show parseCompression 0 bpp = .ok .uncompressed from rfl] at hnew
  dsimp only at hnew
  rw [if_pos (show ¬checkImageSize ((w : Int)).toNat ((h : Int)).natAbs 3 = true by
    simp only [Int.toNat_natCast, Int.natAbs_ofNat, checkImageSize, sizeCeiling]
    simp only [Bool.and_eq_true, decide_eq_true_eq, not_and]
    rcases hbig with hbig | hbig
    · intro
      intro
      simp only [sizeCeiling] at hbig
      omega
    · intro h1
      omega)] at hnew
  refine ⟨hnew, ?_⟩
  unfold decode
  rw [hnew]

/-- Witness for C1: a 65536×16384 24-bpp header (requiring 3 GiB of pixel
storage, over the `2^31`-byte ceiling) with declared file size 100 and no
data bytes at all is rejected at construction with the format error. -/
theorem oversized_header_rejected_witness :
    BMPDecoder.new (mkBMPHeader 100 (65536 : Int) (16384 : Int) 24 0 0 []) =
        .error (.FormatError "image too large") ∧
      decode (mkBMPHeader 100 (65536 : Int) (16384 : Int) 24 0 0 []) =
        .error (.FormatError "image too large") :=
  oversized_header_rejected 100 65536 16384 24 [] (by norm_num) (by norm_num)
    (by norm_num) (by norm_num) (by norm_num) (Or.inl (by norm_num [sizeCeiling]))

end ImageBmp

namespace ImageBmp

/-- C5: The header parser rejects (with a format error) a width that is not
strictly positive, a zero height, a bits-per-pixel outside {1,4,8,16,24,32},
and a run-length compression code paired with the wrong bit depth (RLE8
demands 8 bpp, RLE4 demands 4 bpp, so run-length compression is only ever
accepted at 4 or 8 bpp); a negative height is accepted and marks top-down
row order — every successfully constructed descriptor carries the parsed
width and height, its top-down flag holds exactly when the header height is
negative, and a representative negative-height header is indeed accepted. -/
theorem header_validation (fs : Nat) (w h : Int) (bpp cc cu : Nat) (tail : List Nat)
    (hwlo : -2 ^ 31 ≤ w) (hwhi : w < 2 ^ 31) (hhlo : -2 ^ 31 ≤ h) (hhhi : h < 2 ^ 31)
    (hbpp16 : bpp < 2 ^ 16) (hcc : cc < 2 ^ 32) (hcu : cu < 2 ^ 32) :
    (w ≤ 0 → ∃ s, BMPDecoder.new (mkBMPHeader fs w h bpp cc cu tail) =
        .error (.FormatError s)) ∧
    (h = 0 → ∃ s, BMPDecoder.new (mkBMPHeader fs w h bpp cc cu tail) =
        .error (.FormatError s)) ∧
    (¬(bpp = 1 ∨ bpp = 4 ∨ bpp = 8 ∨ bpp = 16 ∨ bpp = 24 ∨ bpp = 32) →
      ∃ s, BMPDecoder.new (mkBMPHeader fs w h bpp cc cu tail) =
        .error (.FormatError s)) ∧
    (cc = 1 → bpp ≠ 8 → ∃ s, BMPDecoder.new (mkBMPHeader fs w h bpp cc cu tail) =
        .error (.FormatError s)) ∧
    (cc = 2 → bpp ≠ 4 → ∃ s, BMPDecoder.new (mkBMPHeader fs w h bpp cc cu tail) =
        .error (.FormatError s)) ∧
    (∀ dec, BMPDecoder.new (mkBMPHeader fs w h bpp cc cu tail) = .ok dec →
      dec.desc.width = w ∧ dec.desc.height = h ∧
        (dec.desc.topDown = true ↔ h < 0)) ∧
    (0 < w → h < 0 → bpp = 24 → cc = 0 →
      checkImageSize w.toNat h.natAbs 3 = true →
      ∃ dec, BMPDecoder.new (mkBMPHeader fs w h bpp cc cu tail) = .ok dec ∧
        dec.desc.topDown = true) := by
  have key := new_mkBMPHeader fs w h bpp cc cu tail hwlo hwhi hhlo hhhi hbpp16 hcc hcu
  refine ⟨?_, ?_, ?_, ?_, ?_, ?_, ?_⟩
  · intro hw
    rw [key, if_pos hw]
    exact ⟨_, rfl⟩
  · intro hh
    rw [key]
    by_cases hw : w ≤ 0
    · rw [if_pos hw]; exact ⟨_, rfl⟩
    · rw [if_neg hw, if_pos hh]; exact ⟨_, rfl⟩
  · intro hset
    rw [key]
    by_cases hw : w ≤ 0
    · rw [if_pos hw]; exact ⟨_, rfl⟩
    rw [if_neg hw]
    by_cases hh : h = 0
    · rw [if_pos hh]; exact ⟨_, rfl⟩
    rw [if_neg hh, if_pos hset]
    exact ⟨_, rfl⟩
  · intro hcc1 hbpp8
    rw [key]
    by_cases hw : w ≤ 0
    · rw [if_pos hw]; exact ⟨_, rfl⟩
    rw [if_neg hw]
    by_cases hh : h = 0
    · rw [if_pos hh]; exact ⟨_, rfl⟩
    rw [if_neg hh]
    by_cases hset : bpp = 1 ∨ bpp = 4 ∨ bpp = 8 ∨ bpp = 16 ∨ bpp = 24 ∨ bpp = 32
    · rw [if_neg (not_not.mpr hset),
        show parseCompression cc bpp =
          .error (.FormatError "RLE8 compression requires 8 bits per pixel") by
            simp [parseCompression, hcc1, hbpp8]]
      exact ⟨_, rfl⟩
    · rw [if_pos hset]; exact ⟨_, rfl⟩
  · intro hcc2 hbpp4
    rw [key]
    by_cases hw : w ≤ 0
    · rw [if_pos hw]; exact ⟨_, rfl⟩
    rw [if_neg hw]
    by_cases hh : h = 0
    · rw [if_pos hh]; exact ⟨_, rfl⟩
    rw [if_neg hh]
    by_cases hset : bpp = 1 ∨ bpp = 4 ∨ bpp = 8 ∨ bpp = 16 ∨ bpp = 24 ∨ bpp = 32
    · rw [if_neg (not_not.mpr hset),
        show parseCompression cc bpp =
          .error (.FormatError "RLE4 compression requires 4 bits per pixel") by
            simp [parseCompression, hcc2, hbpp4]]
      exact ⟨_, rfl⟩
    · rw [if_pos hset]; exact ⟨_, rfl⟩
  · intro dec hdec
    rw [key] at hdec
    repeat' split at hdec
    all_goals first
      | exact Except.noConfusion hdec
      | (cases hdec
         exact ⟨rfl, rfl, by simp [ImageDescriptor.topDown]⟩)
  · intro hw hh hbpp24 hcc0 hchk
    rw [key, if_neg (by omega), if_neg (by omega),
      if_neg (not_not.mpr (by tauto)), hcc0, hbpp24,
      show parseCompression 0 24 = .ok .uncompressed from rfl]
    dsimp only
    rw [if_neg (not_not.mpr hchk), if_neg (by norm_num)]
    refine ⟨_, rfl, ?_⟩
    simp [ImageDescriptor.topDown]
    omega

end ImageBmp

namespace ImageBmp

/-- Witness for C5: a zero-width header is concretely rejected with a format
error, and a concrete 1×(-1) 24-bpp header is accepted with the top-down
flag set. -/
theorem header_validation_witness :
    (∃ s, BMPDecoder.new (mkBMPHeader 0 (0 : Int) (1 : Int) 24 0 0 []) =
        .error (.FormatError s)) ∧
    (∃ dec, BMPDecoder.new (mkBMPHeader 0 (1 : Int) (-1 : Int) 24 0 0 [10, 20, 30, 0]) =
        .ok dec ∧ dec.desc.topDown = true) :=
  ⟨(header_validation 0 0 1 24 0 0 [] (by norm_num) (by norm_num) (by norm_num)
      (by norm_num) (by norm_num) (by norm_num) (by norm_num)).1 le_rfl,
   (header_validation 0 1 (-1) 24 0 0 [10, 20, 30, 0] (by norm_num) (by norm_num)
      (by norm_num) (by norm_num) (by norm_num) (by norm_num)
      (by norm_num)).2.2.2.2.2.2 (by norm_num) (by norm_num) rfl rfl (by decide)⟩

end ImageBmp

namespace ImageBmp

/-- C7: For every successfully decoded image — under every compression kind
— the output buffer rows are in top-to-bottom order: output row `i` equals
row `σ(i)` of the rows as read, where `σ(i) = i` when the header height is
negative (top-down storage) and `σ(i) = h-1-i` when it is positive
(bottom-up storage, rows written in reverse of read order).  For
uncompressed images the as-read row is the decoded stored scanline, uniform
in bit depth; for the RLE kinds it is the corresponding row of the
palette-resolved decompressed grid. -/
theorem row_orientation (dec : BMPDecoder) (pix : List Pixel) (i : Nat)
    (hread : dec.read_image_data = .ok pix) (hi : i < dec.desc.h) :
    (dec.desc.compression = .uncompressed →
      ∃ prow,
        decodeRowPixels dec.palette dec.desc.bpp dec.desc.w
            ((dec.rest.drop
              ((if dec.desc.topDown then i else dec.desc.h - 1 - i) *
                paddedRowSize dec.desc.w dec.desc.bpp)).take
              (paddedRowSize dec.desc.w dec.desc.bpp)) = .ok prow ∧
          (pix.drop (i * dec.desc.w)).take dec.desc.w = prow) ∧
    (dec.desc.compression = .rle8 →
      ∃ grid pixList,
        rleDecode false dec.desc.w dec.desc.h dec.rest = .ok grid ∧
          mapME (lookupPalette dec.palette) grid = .ok pixList ∧
          (pix.drop (i * dec.desc.w)).take dec.desc.w =
            (chunkRows dec.desc.w dec.desc.h pixList).getD
              (if dec.desc.topDown then i else dec.desc.h - 1 - i) []) ∧
    (dec.desc.compression = .rle4 →
      ∃ grid pixList,
        rleDecode true dec.desc.w dec.desc.h dec.rest = .ok grid ∧
          mapME (lookupPalette dec.palette) grid = .ok pixList ∧
          (pix.drop (i * dec.desc.w)).take dec.desc.w =
            (chunkRows dec.desc.w dec.desc.h pixList).getD
              (if dec.desc.topDown then i else dec.desc.h - 1 - i) []) := by
  refine ⟨?_, ?_, ?_⟩
  · intro hcomp
    unfold BMPDecoder.read_image_data at hread
    rw [hcomp] at hread
    cases hrows : readRows (paddedRowSize dec.desc.w dec.desc.bpp) dec.desc.h dec.rest with
    | error e => rw [hrows] at hread; exact Except.noConfusion hread
    | ok rows =>
      rw [hrows] at hread
      dsimp only at hread
      cases hmap : mapME (decodeRowPixels dec.palette dec.desc.bpp dec.desc.w) rows with
      | error e => rw [hmap] at hread; exact Except.noConfusion hread
      | ok pixRows =>
        rw [hmap] at hread
        dsimp only at hread
        cases hread
        obtain ⟨hrlen, hrget⟩ := readRows_ok hrows
        have hplen : pixRows.length = dec.desc.h := by rw [mapME_ok_length hmap, hrlen]
        have hrowlen : ∀ r ∈ pixRows, r.length = dec.desc.w := by
          intro r hr
          obtain ⟨row, _, hrow⟩ := mapME_ok_forall_mem hmap r hr
          exact decodeRowPixels_ok_length hrow
        refine ⟨pixRows.getD (if dec.desc.topDown then i else dec.desc.h - 1 - i) [], ?_, ?_⟩
        · have hσ : (if dec.desc.topDown then i else dec.desc.h - 1 - i) < rows.length := by
            rw [hrlen]; split <;> omega
          have := mapME_ok_getD hmap [] [] _ hσ
          rwa [hrget _ (by omega : (if dec.desc.topDown then i else dec.desc.h - 1 - i) <
            dec.desc.h)] at this
        · have horlen : ∀ r ∈ orient dec.desc.topDown pixRows, r.length = dec.desc.w :=
            fun r hr => hrowlen r (orient_mem hr)
          rw [flatten_row_slice horlen i (by rw [orient_length, hplen]; exact hi)]
          unfold orient
          split
          · rfl
          · rw [getD_reverse _ _ (by rw [hplen]; exact hi), hplen]
  · intro hcomp
    unfold BMPDecoder.read_image_data at hread
    rw [hcomp] at hread
    cases hgrid : rleDecode false dec.desc.w dec.desc.h dec.rest with
    | error e => rw [hgrid] at hread; exact Except.noConfusion hread
    | ok grid =>
      rw [hgrid] at hread
      dsimp only at hread
      cases hmap : mapME (lookupPalette dec.palette) grid with
      | error e => rw [hmap] at hread; exact Except.noConfusion hread
      | ok pixList =>
        rw [hmap] at hread
        dsimp only at hread
        cases hread
        refine ⟨grid, pixList, rfl, hmap, ?_⟩
        have hlen : pixList.length = dec.desc.w * dec.desc.h := by
          rw [mapME_ok_length hmap, rleDecode_ok_length hgrid]
        have hrows : ∀ r ∈ chunkRows dec.desc.w dec.desc.h pixList, r.length = dec.desc.w :=
          chunkRows_row_length hlen
        have horlen : ∀ r ∈ orient dec.desc.topDown (chunkRows dec.desc.w dec.desc.h pixList),
            r.length = dec.desc.w := fun r hr => hrows r (orient_mem hr)
        rw [flatten_row_slice horlen i (by rw [orient_length, chunkRows_length]; exact hi)]
        unfold orient
        split
        · rfl
        · rw [getD_reverse _ _ (by rw [chunkRows_length]; exact hi), chunkRows_length]
  · intro hcomp
    unfold BMPDecoder.read_image_data at hread
    rw [hcomp] at hread
    cases hgrid : rleDecode true dec.desc.w dec.desc.h dec.rest with
    | error e => rw [hgrid] at hread; exact Except.noConfusion hread
    | ok grid =>
      rw [hgrid] at hread
      dsimp only at hread
      cases hmap : mapME (lookupPalette dec.palette) grid with
      | error e => rw [hmap] at hread; exact Except.noConfusion hread
      | ok pixList =>
        rw [hmap] at hread
        dsimp only at hread
        cases hread
        refine ⟨grid, pixList, rfl, hmap, ?_⟩
        have hlen : pixList.length = dec.desc.w * dec.desc.h := by
          rw [mapME_ok_length hmap, rleDecode_ok_length hgrid]
        have hrows : ∀ r ∈ chunkRows dec.desc.w dec.desc.h pixList, r.length = dec.desc.w :=
          chunkRows_row_length hlen
        have horlen : ∀ r ∈ orient dec.desc.topDown (chunkRows dec.desc.w dec.desc.h pixList),
            r.length = dec.desc.w := fun r hr => hrows r (orient_mem hr)
        rw [flatten_row_slice horlen i (by rw [orient_length, chunkRows_length]; exact hi)]
        unfold orient
        split
        · rfl
        · rw [getD_reverse _ _ (by rw [chunkRows_length]; exact hi), chunkRows_length]

/-- Witness for C7: in the concrete two-row bottom-up 24-bpp sample image,
output row 0 (the top row) is the decoded stored row 1; and in a concrete
2×2 bottom-up RLE8 image, output row 0 is row 1 of the palette-resolved
decompressed grid. -/
theorem row_orientation_witness :
    (∃ prow,
      decodeRowPixels
          (BMPDecoder.mk (ImageDescriptor.mk 1 2 24 .uncompressed 0 54) []
            [3, 2, 1, 0, 6, 5, 4, 0]).palette
          (ImageDescriptor.mk 1 2 24 .uncompressed 0 54).bpp
          (ImageDescriptor.mk 1 2 24 .uncompressed 0 54).w
          ((([3, 2, 1, 0, 6, 5, 4, 0] : List Nat).drop
            ((if (ImageDescriptor.mk 1 2 24 .uncompressed 0 54).topDown then 0
              else (ImageDescriptor.mk 1 2 24 .uncompressed 0 54).h - 1 - 0) *
              paddedRowSize (ImageDescriptor.mk 1 2 24 .uncompressed 0 54).w
                (ImageDescriptor.mk 1 2 24 .uncompressed 0 54).bpp)).take
            (paddedRowSize (ImageDescriptor.mk 1 2 24 .uncompressed 0 54).w
              (ImageDescriptor.mk 1 2 24 .uncompressed 0 54).bpp)) = .ok prow ∧
        ((([(4, 5, 6), (1, 2, 3)] : List Pixel)).drop
            (0 * (ImageDescriptor.mk 1 2 24 .uncompressed 0 54).w)).take
          (ImageDescriptor.mk 1 2 24 .uncompressed 0 54).w = prow) ∧
    (∃ grid pixList,
      rleDecode false (ImageDescriptor.mk 2 2 8 .rle8 2 62).w
          (ImageDescriptor.mk 2 2 8 .rle8 2 62).h [2, 1, 2, 0] = .ok grid ∧
        mapME (lookupPalette [((9 : Nat), (8 : Nat), (7 : Nat)), (19, 18, 17)]) grid =
          .ok pixList ∧
        ((([((9 : Nat), (8 : Nat), (7 : Nat)), (9, 8, 7), (19, 18, 17),
            (19, 18, 17)] : List Pixel)).drop
            (0 * (ImageDescriptor.mk 2 2 8 .rle8 2 62).w)).take
          (ImageDescriptor.mk 2 2 8 .rle8 2 62).w =
          (chunkRows (ImageDescriptor.mk 2 2 8 .rle8 2 62).w
            (ImageDescriptor.mk 2 2 8 .rle8 2 62).h pixList).getD
            (if (ImageDescriptor.mk 2 2 8 .rle8 2 62).topDown then 0
              else (ImageDescriptor.mk 2 2 8 .rle8 2 62).h - 1 - 0) []) :=
  ⟨(row_orientation
      (BMPDecoder.mk (ImageDescriptor.mk 1 2 24 .uncompressed 0 54) []
        [3, 2, 1, 0, 6, 5, 4, 0])
      [(4, 5, 6), (1, 2, 3)] 0 rfl (by decide)).1 rfl,
   (row_orientation
      (BMPDecoder.mk (ImageDescriptor.mk 2 2 8 .rle8 2 62)
        [(9, 8, 7), (19, 18, 17)] [2, 1, 2, 0])
      [(9, 8, 7), (9, 8, 7), (19, 18, 17), (19, 18, 17)] 0 rfl (by decide)).2.1 rfl⟩

end ImageBmp

namespace ImageBmp

theorem paddedRowSize_24 (w : Nat) :
    3 * w ≤ paddedRowSize w 24 ∧ paddedRowSize w 24 ≤ 3 * w + 3 := by
  unfold paddedRowSize rowSize
  omega

theorem byteAt_c0 (x : Nat) (l : List Nat) : byteAt (x :: l) 0 = x % 256 := rfl

theorem byteAt_c1 (x y : Nat) (l : List Nat) : byteAt (x :: y :: l) 1 = y % 256 := rfl

theorem byteAt_c2 (x y z : Nat) (l : List Nat) : byteAt (x :: y :: z :: l) 2 = z % 256 := rfl

theorem encodeRow24_length {w : Nat} {row : List Pixel} (hlen : row.length = w) :
    (encodeRow24 w row).length = paddedRowSize w 24 := by
  unfold encodeRow24
  rw [List.length_append, List.length_replicate,
    flatten_length_const (w := 3)
      (by intro r hr; simp only [List.mem_map] at hr; obtain ⟨px, _, rfl⟩ := hr; rfl)]
  rw [List.length_map, hlen]
  have := paddedRowSize_24 w
  omega

theorem decodeRow24_body (row : List Pixel) (extra : List Nat)
    (hwf : ∀ px ∈ row, px.1 < 256 ∧ px.2.1 < 256 ∧ px.2.2 < 256) :
    decodeRow24 row.length
      ((row.map fun px => [px.2.2 % 256, px.2.1 % 256, px.1 % 256]).flatten ++ extra) =
      row := by
  induction row with
  | nil => rfl
  | cons px rest ih =>
    obtain ⟨r, g, b⟩ := px
    obtain ⟨hr, hg, hb⟩ := hwf (r, g, b) (by simp)
    simp only at hr hg hb
    simp only [List.length_cons, List.map_cons, List.flatten_cons, List.cons_append,
      List.nil_append, List.append_assoc, decodeRow24, List.drop_succ_cons,
      List.drop_zero, List.cons.injEq]
    refine ⟨?_, ih (fun p hp => hwf p (by simp [hp]))⟩
    simp only [byteAt_c0, byteAt_c1, byteAt_c2, Prod.mk.injEq]
    refine ⟨?_, ?_, ?_⟩ <;> omega

theorem decodeRow24_wf (n : Nat) (row : List Nat) :
    ∀ px ∈ decodeRow24 n row, px.1 < 256 ∧ px.2.1 < 256 ∧ px.2.2 < 256 := by
  induction n generalizing row with
  | zero => simp [decodeRow24]
  | succ n ih =>
    intro px hpx
    simp only [decodeRow24, List.mem_cons] at hpx
    rcases hpx with rfl | hpx
    · exact ⟨byteAt_lt _ _, byteAt_lt _ _, byteAt_lt _ _⟩
    · exact ih _ px hpx

theorem decodeRowPixels_24 (pal : List Pixel) (w : Nat) (row : List Nat) :
    decodeRowPixels pal 24 w row = .ok (decodeRow24 w row) := by
  simp [decodeRowPixels]

theorem mapME_congr {α β : Type} {f g : α → Except ImageError β} {l : List α}
    (h : ∀ a ∈ l, f a = g a) : mapME f l = mapME g l := by
  induction l with
  | nil => rfl
  | cons a l ih =>
    simp only [mapME]
    rw [h a (by simp), ih (fun a ha => h a (by simp [ha]))]

theorem read24_wf {dec : BMPDecoder} {pix : List Pixel}
    (hread : dec.read_image_data = .ok pix) (hbpp : dec.desc.bpp = 24)
    (hcomp : dec.desc.compression = .uncompressed) :
    ∀ px ∈ pix, px.1 < 256 ∧ px.2.1 < 256 ∧ px.2.2 < 256 := by
  unfold BMPDecoder.read_image_data at hread
  rw [hcomp] at hread
  cases hrows : readRows (paddedRowSize dec.desc.w dec.desc.bpp) dec.desc.h dec.rest with
  | error e => rw [hrows] at hread; exact Except.noConfusion hread
  | ok rows =>
    rw [hrows] at hread
    dsimp only at hread
    cases hmap : mapME (decodeRowPixels dec.palette dec.desc.bpp dec.desc.w) rows with
    | error e => rw [hmap] at hread; exact Except.noConfusion hread
    | ok pixRows =>
      rw [hmap] at hread
      dsimp only at hread
      cases hread
      intro px hpx
      obtain ⟨r, hr, hpxr⟩ := List.mem_flatten.mp hpx
      obtain ⟨row, _, hrow⟩ := mapME_ok_forall_mem hmap r (orient_mem hr)
      rw [hbpp, decodeRowPixels_24] at hrow
      cases hrow
      exact decodeRow24_wf _ _ px hpxr

end ImageBmp

namespace ImageBmp

/-- C3: For every pixel buffer obtained by decoding a valid uncompressed
24-bpp BMP stream, encoding that buffer at 24 bpp succeeds and decoding the
encoded bytes again yields an identical pixel buffer. -/
theorem decode_encode_roundtrip (bs : List Nat) (d : ImageDescriptor)
    (pix : List Pixel) (hdec : decode bs = .ok (d, pix)) (hbpp : d.bpp = 24)
    (hcomp : d.compression = .uncompressed) :
    ∃ out, encode24 d.w d.h pix = .ok out ∧ ∃ d2, decode out = .ok (d2, pix) := by
  obtain ⟨dec, hnew, hdesc, hread⟩ := decode_ok_parts hdec
  subst hdesc
  obtain ⟨hwpos, hhne, _, _, _, hchk⟩ := new_ok_validDescriptor hnew
  have hw0 : 0 < dec.desc.w := by unfold ImageDescriptor.w; omega
  have hh0 : 0 < dec.desc.h := by unfold ImageDescriptor.h; omega
  have hlen : pix.length = dec.desc.h * dec.desc.w := read_image_data_length hread
  have hlen' : pix.length = dec.desc.w * dec.desc.h := by rw [hlen, Nat.mul_comm]
  have hwf := read24_wf hread hbpp hcomp
  have hchk' : (dec.desc.w * dec.desc.h < 2 ^ 64 ∧
      dec.desc.w * dec.desc.h * 3 < 2 ^ 64) ∧
      dec.desc.w * dec.desc.h * 3 ≤ 2 ^ 31 := by
    simpa [checkImageSize, sizeCeiling, Bool.and_eq_true, decide_eq_true_eq] using hchk
  have hWle : dec.desc.w ≤ dec.desc.w * dec.desc.h := Nat.le_mul_of_pos_right _ hh0
  have hHle : dec.desc.h ≤ dec.desc.w * dec.desc.h := Nat.le_mul_of_pos_left _ hw0
  have hWlt : dec.desc.w < 2 ^ 31 := by omega
  have hHlt : dec.desc.h < 2 ^ 31 := by omega
  have henc : encode24 dec.desc.w dec.desc.h pix =
      .ok (mkBMPHeader (54 + dec.desc.h * paddedRowSize dec.desc.w 24)
        (dec.desc.w : Int) (dec.desc.h : Int) 24 0 0
        (((chunkRows dec.desc.w dec.desc.h pix).reverse.map
          (encodeRow24 dec.desc.w)).flatten)) := by
    unfold encode24
    rw [if_neg (by omega), if_neg (by omega), if_neg (not_not.mpr hlen'),
      if_neg (not_not.mpr hchk)]
  refine ⟨_, henc, ?_⟩
  have hnew2 := new_mkBMPHeader (54 + dec.desc.h * paddedRowSize dec.desc.w 24)
    (dec.desc.w : Int) (dec.desc.h : Int) 24 0 0
    (((chunkRows dec.desc.w dec.desc.h pix).reverse.map (encodeRow24 dec.desc.w)).flatten)
    (by omega) (by exact_mod_cast hWlt) (by omega) (by exact_mod_cast hHlt)
    (by norm_num) (by norm_num) (by norm_num)
  rw [if_neg (show ¬((dec.desc.w : Int) ≤ 0) by omega),
    if_neg (show ¬((dec.desc.h : Int) = 0) by omega),
    if_neg (not_not.mpr (show (24 : Nat) = 1 ∨ (24 : Nat) = 4 ∨ (24 : Nat) = 8 ∨
      (24 : Nat) = 16 ∨ (24 : Nat) = 24 ∨ (24 : Nat) = 32 by norm_num)),
    show parseCompression 0 24 = .ok .uncompressed from rfl] at hnew2
  dsimp only at hnew2
  rw [if_neg (not_not.mpr (show
      checkImageSize ((dec.desc.w : Int)).toNat ((dec.desc.h : Int)).natAbs 3 = true by
        rw [Int.toNat_natCast, Int.natAbs_ofNat]; exact hchk)),
    if_neg (show ¬((24 : Nat) ≤ 8) by norm_num)] at hnew2
  have hread2 : (BMPDecoder.mk
      (ImageDescriptor.mk (dec.desc.w : Int) (dec.desc.h : Int) 24 .uncompressed 0 54) []
      (((chunkRows dec.desc.w dec.desc.h pix).reverse.map
        (encodeRow24 dec.desc.w)).flatten)).read_image_data = .ok pix := by
    unfold BMPDecoder.read_image_data
    dsimp only [ImageDescriptor.w, ImageDescriptor.h, ImageDescriptor.topDown]
    rw [Int.toNat_natCast, Int.natAbs_ofNat]
    have hrows : readRows (paddedRowSize dec.desc.w 24) dec.desc.h
        (((chunkRows dec.desc.w dec.desc.h pix).reverse.map
          (encodeRow24 dec.desc.w)).flatten) =
        .ok ((chunkRows dec.desc.w dec.desc.h pix).reverse.map
          (encodeRow24 dec.desc.w)) := by
      have hcount : ((chunkRows dec.desc.w dec.desc.h pix).reverse.map
          (encodeRow24 dec.desc.w)).length = dec.desc.h := by
        rw [List.length_map, List.length_reverse, chunkRows_length]
      have h0 := readRows_flatten
        ((chunkRows dec.desc.w dec.desc.h pix).reverse.map (encodeRow24 dec.desc.w))
        (by
          intro r hr
          simp only [List.mem_map] at hr
          obtain ⟨row, hrow, rfl⟩ := hr
          exact encodeRow24_length
            (chunkRows_row_length hlen' row (List.mem_reverse.mp hrow)))
      rwa [hcount] at h0
    simp only [ImageDescriptor.w, ImageDescriptor.h] at hrows
    rw [hrows]
    dsimp only
    have hmap2 : mapME (decodeRowPixels [] 24 dec.desc.w)
        ((chunkRows dec.desc.w dec.desc.h pix).reverse.map (encodeRow24 dec.desc.w)) =
        .ok ((chunkRows dec.desc.w dec.desc.h pix).reverse) := by
      rw [mapME_congr (fun r _ => decodeRowPixels_24 [] dec.desc.w r),
        mapME_map_ok (decodeRow24 dec.desc.w)]
      congr 1
      rw [List.map_map]
      have hid : ∀ row ∈ (chunkRows dec.desc.w dec.desc.h pix).reverse,
          decodeRow24 dec.desc.w (encodeRow24 dec.desc.w row) = row := by
        intro row hrow
        have hrl : row.length = dec.desc.w :=
          chunkRows_row_length hlen' row (List.mem_reverse.mp hrow)
        have hrwf : ∀ p ∈ row, p.1 < 256 ∧ p.2.1 < 256 ∧ p.2.2 < 256 :=
          fun p hp => hwf p (mem_chunkRows (List.mem_reverse.mp hrow) p hp)
        unfold encodeRow24
        rw [← hrl]
        exact decodeRow24_body row _ hrwf
      calc ((chunkRows dec.desc.w dec.desc.h pix).reverse).map
            (fun row => decodeRow24 dec.desc.w (encodeRow24 dec.desc.w row)) =
          ((chunkRows dec.desc.w dec.desc.h pix).reverse).map id := by
            exact List.map_congr_left hid
        _ = (chunkRows dec.desc.w dec.desc.h pix).reverse := List.map_id _
    simp only [ImageDescriptor.w, ImageDescriptor.h] at hmap2
    rw [hmap2]
    dsimp only
    have htd : (decide ((dec.desc.height.natAbs : Int) < 0)) = false := by
      simp only [decide_eq_false_iff_not]
      omega
    rw [htd]
    have hflat := chunkRows_flatten hlen'
    simp only [ImageDescriptor.w, ImageDescriptor.h] at hflat
    unfold orient
    rw [if_neg (by simp), List.reverse_reverse, hflat]
  unfold decode
  rw [hnew2]
  dsimp only
  rw [hread2]
  exact ⟨_, rfl⟩

end ImageBmp

namespace ImageBmp

/-- Witness for C3: the concrete 1×1 24-bpp sample image decodes, its buffer
re-encodes at 24 bpp, and the encoded bytes decode back to the identical
buffer. -/
theorem decode_encode_roundtrip_witness :
    ∃ out, encode24 (ImageDescriptor.mk 1 1 24 .uncompressed 0 54).w
        (ImageDescriptor.mk 1 1 24 .uncompressed 0 54).h
        [((30 : Nat), (20 : Nat), (10 : Nat))] = .ok out ∧
      ∃ d2, decode out = .ok (d2, [((30 : Nat), (20 : Nat), (10 : Nat))]) :=
  decode_encode_roundtrip sampleBmp24 (ImageDescriptor.mk 1 1 24 .uncompressed 0 54)
    [(30, 20, 10)] rfl rfl rfl

end ImageBmp
